import Mathlib

/-!
Verification of the repository question-answering tool (src/main.py).

The development shallowly embeds the program: the filesystem is explicit
data, Python pathlib operations become functions on segment lists, the
Ollama chat endpoint becomes an arbitrary behaviour function, and code
that can raise returns Except values.
-/

namespace BeYourOwnRag

/-! ## String primitives

Python string operations used by the source, modelled on character lists
(String.toList).  `firstIdx` embeds both `needle in hay` (via isSome) and
`hay.index(needle)` (the returned index; Python raises ValueError when the
needle is absent, which callers of `firstIdx` see as `none`). -/

/-- First index at which `needle` occurs in `hay`, or `none`.
Matches Python `hay.index(needle)` / `needle in hay` semantics:
the empty needle occurs at index 0 of every string. -/
def firstIdx (needle : List Char) : List Char → Option Nat
  | [] => if needle.isEmpty then some 0 else none
  | c :: rest =>
    if needle.isPrefixOf (c :: rest) then some 0
    else (firstIdx needle rest).map (· + 1)

/-- Python `str.lower`, on character lists (ASCII, as used by the repo). -/
def lowerL (cs : List Char) : List Char := cs.map Char.toLower

/-- Python `s.startswith(".")`: the first character is a dot. -/
def startsWithDot (s : String) : Bool :=
  match s.toList with
  | c :: _ => c == '.'
  | [] => false

/-! ## Path model (pathlib + POSIX open)

An absolute path is its list of components.  `pathlib` keeps `..`
components (no normalization) while dropping empty and `.` components;
`is_relative_to` is a lexical components-prefix test.  The operating
system resolves `..` only at `open` time (`resolveParts`). -/

/-- Split a path string on slashes, dropping empty and `.` segments,
as `pathlib.PurePosixPath` does.  `..` segments are kept. -/
def splitSlash (cs : List Char) : List (List Char) :=
  match cs with
  | [] => [[]]
  | c :: rest =>
    match splitSlash rest with
    | [] => [[]]
    | seg :: segs => if c == '/' then [] :: seg :: segs else (c :: seg) :: segs

/-- Path-string to components, pathlib style. -/
def segsOf (s : String) : List String :=
  ((splitSlash s.toList).map (fun l => String.mk l)).filter
    (fun seg => seg != "" && seg != ".")

/-- Is the path string absolute (starts with a slash)? -/
def isAbs (s : String) : Bool :=
  match s.toList with
  | c :: _ => c == '/'
  | [] => false

/-- `root / rel` of pathlib: an absolute right operand overrides the root,
otherwise the components are appended without any `..` normalization. -/
def joinPath (root : List String) (rel : String) : List String :=
  if isAbs rel then segsOf rel else root ++ segsOf rel

/-- Resolution of `..` components performed by the operating system when a
file is actually opened (POSIX semantics: `..` at the root stays put). -/
def resolveParts (parts : List String) : List String :=
  parts.foldl (fun acc seg => if seg == ".." then acc.dropLast else acc ++ [seg]) []

/-! ## Filesystem

A finite map from resolved absolute paths to file contents (lines,
without trailing newlines). -/

abbrev FS := List (List String × List String)

/-- Look up a resolved absolute path; `none` models FileNotFoundError. -/
def fsLookup (fs : FS) (p : List String) : Option (List String) :=
  match fs with
  | [] => none
  | (q, lines) :: rest => if q == p then some lines else fsLookup rest p

/-! ## find_string_in_file (src/main.py lines 68-89) -/

structure SymbolLocation where
  file_path : String
  row : Nat
  column : Nat
deriving DecidableEq, Repr

/-- The per-line test of the source:
`string_pattern.lower() in line.lower()` (case-insensitive containment). -/
def lineMatches (pat line : String) : Bool :=
  (firstIdx (lowerL pat.toList) (lowerL line.toList)).isSome

/-- The loop body of find_string_in_file over the lines of the open file.
`i` is the 0-based line number of the first line of `lines`.  A line that
matches case-insensitively but has no exact occurrence makes
`line.index(string_pattern)` raise ValueError, modelled as `.error ()`. -/
def findInLines (fp pat : String) : Nat → List String → Except Unit (List SymbolLocation)
  | _, [] => .ok []
  | i, l :: ls =>
    if lineMatches pat l then
      match firstIdx pat.toList l.toList with
      | some j => (findInLines fp pat (i + 1) ls).map (fun rest => ⟨fp, i + 1, j + 1⟩ :: rest)
      | none => .error ()
    else findInLines fp pat (i + 1) ls

/-- src/main.py `find_string_in_file`.  Empty path returns the empty list;
the sandbox check is `(local_path / file_path).is_relative_to(local_path)`
on the UNRESOLVED path; `open` resolves `..` and may raise
FileNotFoundError (`.error ()`). -/
def find_string_in_file (fs : FS) (root : List String) (file_path string_pattern : String) :
    Except Unit (List SymbolLocation) :=
  if file_path == "" then .ok []
  else
    let abs_path := joinPath root file_path
    if List.isPrefixOf root abs_path then
      match fsLookup fs (resolveParts abs_path) with
      | some lines => findInLines file_path string_pattern 0 lines
      | none => .error ()
    else .ok []

/-! ## get_file_source (src/main.py lines 132-144) -/

/-- src/main.py `get_file_source`: never raises; empty path and any error
inside the `try` yield sentinel strings, success yields the wrapped file
contents. -/
def get_file_source (fs : FS) (root : List String) (file_path : String) : String :=
  if file_path == "" then "Nothing in this file"
  else
    let abs_path := joinPath root file_path
    if List.isPrefixOf root abs_path then
      match fsLookup fs (resolveParts abs_path) with
      | some lines =>
        "The contents of " ++ file_path ++ " are as following:\n```\n"
          ++ String.intercalate "\n" lines ++ "\n```"
      | none => "Cannot get contents of " ++ file_path
    else "Cannot get contents of " ++ file_path

/-! ## list_files_in_repository (src/main.py lines 48-66)

The repository directory tree.  `Path.walk` yields each directory
top-down; a directory whose name starts with a dot contributes no files
and has its subdirectories pruned (`dirs.clear()`). -/

inductive FSTree where
  | file (name : String)
  | dir (name : String) (entries : List FSTree)
deriving Repr

/-- A file entry contributes its one-segment relative path. -/
def topFile : FSTree → Option (List String) :=
  fun e => match e with
  | .file f => some [f]
  | .dir _ _ => none

/-- Relative paths (as segment lists) contributed by the subdirectories of
the current directory, in `Path.walk` depth-first order: for each child
directory, its own files first, then its subtrees; a dotted child
directory is pruned entirely. -/
def walkDirs : List FSTree → List (List String)
  | [] => []
  | FSTree.file _ :: rest => walkDirs rest
  | FSTree.dir m sub :: rest =>
    (if startsWithDot m then []
     else ((sub.filterMap topFile) ++ walkDirs sub).map (fun p => m :: p))
      ++ walkDirs rest

/-- src/main.py `list_files_in_repository`, as segment lists: the walk of
the root directory. -/
def walkFiles : FSTree → List (List String)
  | .file _ => []
  | .dir n es =>
    if startsWithDot n then []
    else es.filterMap topFile ++ walkDirs es

/-- src/main.py `list_files_in_repository`: relative path strings. -/
def list_files_in_repository (t : FSTree) : List String :=
  (walkFiles t).map (String.intercalate "/")

/-! ## find_string_in_repository (src/main.py lines 91-101) -/

/-- src/main.py `find_string_in_repository`: concatenates
find_string_in_file over every listed file, swallowing per-file errors
(the bare `except: pass`). -/
def find_string_in_repository (t : FSTree) (fs : FS) (root : List String)
    (string_pattern : String) : List SymbolLocation :=
  (list_files_in_repository t).flatMap (fun fp =>
    match find_string_in_file fs root fp string_pattern with
    | .ok ls => ls
    | .error _ => [])

/-! ## Memoization (src/main.py lines 146-158)

`compute_tools_for_context` wraps every capability with
`functools.cache`, a dictionary keyed on the exact argument tuple.  The
capability itself is a function of the live filesystem and its
arguments; the cached wrapper threads an explicit cache. -/

/-- Lookup in the functools.cache dictionary (argument tuple as key). -/
def cacheFind (a : String) : List (String × String) → Option String
  | [] => none
  | (k, v) :: rest => if k == a then some v else cacheFind a rest

/-- One call through the `functools.cache` wrapper installed by
compute_tools_for_context: on a hit, return the stored result and leave
the cache alone; on a miss, evaluate the capability against the current
filesystem and record the result. -/
def callCached (f : FS → String → String) (fs : FS) (cache : List (String × String))
    (a : String) : String × List (String × String) :=
  match cacheFind a cache with
  | some v => (v, cache)
  | none => ((f fs a), (a, f fs a) :: cache)

/-! ## Conversation driver (src/main.py lines 162-214) -/

structure Message where
  role : String
  content : String
deriving DecidableEq, Repr

structure ToolCall where
  name : String
  arguments : String
deriving DecidableEq, Repr

/-- One chat response: optional assistant content plus the (possibly
empty) ordered tool-call list (`response.message.tool_calls or []`). -/
structure Response where
  content : Option String
  tool_calls : List ToolCall
deriving DecidableEq, Repr

/-- The registry handed to the driver: `tool_dict.get(name)` yields the
(cached) capability or `None`; invocation may raise (`.error`). -/
abbrev Tools := String → Option (String → Except String String)

/-- A behaviour of the external chat service: response to the i-th call,
given the message history sent. -/
abbrev Chat := Nat → List Message → Response

/-- Outcome of dispatching one tool call inside the driver `try` block:
`none` when `tool_dict.get` returned `None` (the subsequent call raises
TypeError) or when the capability itself raised; `some` carries the
serialized return value. -/
def toolResult (tools : Tools) (tc : ToolCall) : Option String :=
  match tools tc.name with
  | none => none
  | some f =>
    match f tc.arguments with
    | .ok v => some v
    | .error _ => none

/-- The driver body for one tool call: a successful call appends a
`tool` role message with the serialized result; a failed call is only
printed (`except ... pass`), appending nothing. -/
def processTool (tools : Tools) (msgs : List Message) (tc : ToolCall) : List Message :=
  match toolResult tools tc with
  | some v => msgs ++ [⟨"tool", v⟩]
  | none => msgs

/-- The `for tool in response.message.tool_calls or []` loop. -/
def processCalls (tools : Tools) (msgs : List Message) : List ToolCall → List Message
  | [] => msgs
  | tc :: rest => processCalls tools (processTool tools msgs tc) rest

/-- Final state of the driver: message history, loop counter (= number of
chat calls made), and the last chat response received. -/
structure DriverResult where
  messages : List Message
  loops : Nat
  last : Option Response
deriving Repr

/-- The `while made_tool_calls_in_this_loop and loops < 10` loop.  The
fuel argument only bounds the recursion depth; entered with fuel 11 and
loops 0 it can never run out before the `loops < 10` guard fails, so the
guard alone decides termination, as in the source. -/
def driverLoop (chat : Chat) (tools : Tools) :
    Nat → List Message → Bool → Nat → Option Response → DriverResult
  | 0, msgs, _, loops, last => ⟨msgs, loops, last⟩
  | fuel + 1, msgs, made, loops, last =>
    if made ∧ loops < 10 then
      let r := chat loops msgs
      driverLoop chat tools fuel (processCalls tools msgs r.tool_calls)
        (!r.tool_calls.isEmpty) (loops + 1) (some r)
    else ⟨msgs, loops, last⟩

/-- The system prompt of src/main.py (PROMPT). -/
def PROMPT : String := "\nYou are an expert code manipulation tool.\n\nYou are in charge of understanding and optimizing a project\x27s codebase, and have been\nprovided a set of tools for auditing and manipulating this project. You must use the tools\nprovided to the best of your ability to answer rthe user\x27s questions precisely and in a\nconcise, accurate manner.\n\nYou will also be provided with a list of filenames in the project, which may give you\nadditional insight into the structure of the project\x27s code repository.\n\nYou may _only_ use code that has been presented to you, either via a prompt or as a\ntool call from `get_file_source`. Please use `get_file_source` as your source for truth for\ncode.\n\nOnce you have gotten the results from a tool call, please feel free to issue additional\ntool calls to further dig into the problem.\n"

/-- The seeded message history of query_repo_for_information: system
prompt, assistant file listing, user question. -/
def initialMessages (files : List String) (prompt : String) : List Message :=
  [⟨"system", PROMPT⟩,
   ⟨"assistant", "Here are the names of all the files in the project:\n```\n"
      ++ String.intercalate "\n" files ++ "\n```"⟩,
   ⟨"user", prompt⟩]

/-- src/main.py `query_repo_for_information`, abstracted over the chat
service behaviour and the tool registry: the seeded history is iterated
by `driverLoop` starting with `made_tool_calls_in_this_loop = True` and
`loops = 0`. -/
def query_repo_for_information (chat : Chat) (tools : Tools) (files : List String)
    (prompt : String) : DriverResult :=
  driverLoop chat tools 11 (initialMessages files prompt) true 0 none

/-- The value returned to the caller: `response.message.content` of the
last chat response (the loop always runs at least once). -/
def queryAnswer (chat : Chat) (tools : Tools) (files : List String)
    (prompt : String) : Option String :=
  match (query_repo_for_information chat tools files prompt).last with
  | some r => r.content
  | none => none

/-! ## Concrete instances used in the theorems -/

deriving instance DecidableEq for Except

/-- Repository root `/home/repo`. -/
def demoRoot : List String := ["home", "repo"]

/-- A filesystem holding `/home/secret` OUTSIDE the repository root. -/
def secretFS : FS := [(["home", "secret"], ["password123"])]

/-- The two-file repository of the end-to-end spec example. -/
def demoFS : FS :=
  [(["home", "repo", "a.py"], ["def foo(): pass"]),
   (["home", "repo", "b.py"], ["foo()"])]

/-- Directory tree of the end-to-end spec example. -/
def demoTree : FSTree := .dir "repo" [.file "a.py", .file "b.py"]

/-- A file whose single line matches `foo` case-insensitively but not
exactly. -/
def caseFS : FS := [(["home", "repo", "c.py"], ["Foo"])]

/-- A repository with a hidden FILE at the top level. -/
def dotFileTree : FSTree := .dir "repo" [.file ".env"]

/-- A repository with a visible subdirectory. -/
def srcTree : FSTree := .dir "repo" [.dir "src" [.file "a.py"]]

/-- A chat behaviour that always issues one tool call alongside assistant
content. -/
def constChat : Chat := fun _ _ => ⟨some "still looking", [⟨"find_string_in_file", "args"⟩]⟩

/-- A chat behaviour that always requests one unknown capability. -/
def bogusChat : Chat := fun _ _ => ⟨none, [⟨"bogus_tool", "x"⟩]⟩

/-- An empty tool registry: every lookup fails. -/
def noTools : Tools := fun _ => none

/-! # Theorems -/

/-- C1: the Path Sandbox does NOT reject traversal paths.  With root
`/home/repo` and a readable `/home/secret`, the lexical
`is_relative_to` check accepts `../secret` because pathlib keeps the
`..` component unnormalized; `open` then resolves it to `/home/secret`,
OUTSIDE the root, so find_string_in_file returns a non-empty sequence
read from a file outside the repository and get_file_source returns the
contents of that file instead of the failure sentinel.  This contradicts the
claim (the sandbox check is intended to prevent exactly this, so the
code, not the claim, is at fault). -/
theorem sandbox_accepts_traversal :
    List.isPrefixOf demoRoot (joinPath demoRoot "../secret") = true
    ∧ resolveParts (joinPath demoRoot "../secret") = ["home", "secret"]
    ∧ List.isPrefixOf demoRoot ["home", "secret"] = false
    ∧ find_string_in_file secretFS demoRoot "../secret" "password"
        = .ok [⟨"../secret", 1, 1⟩]
    ∧ get_file_source secretFS demoRoot "../secret"
        = "The contents of ../secret are as following:\n```\npassword123\n```" := by
  refine ⟨by decide, by decide, by decide, by decide, by decide⟩

/-- C4: get_file_source never raises and returns sentinels for the empty
path, an absolute out-of-root path, and a missing file; but on the
traversal path `../secret` (which escapes the sandbox root) it returns
the file CONTENTS, not the failure sentinel, because the lexical
containment check passes unnormalized `..` components.  The sandbox
part of the claim therefore fails against the code, through the same
slip in the containment check. -/
theorem get_file_source_traversal_returns_contents :
    get_file_source secretFS demoRoot "" = "Nothing in this file"
    ∧ get_file_source secretFS demoRoot "missing.txt" = "Cannot get contents of missing.txt"
    ∧ get_file_source secretFS demoRoot "/etc/passwd" = "Cannot get contents of /etc/passwd"
    ∧ get_file_source secretFS demoRoot "../secret"
        = "The contents of ../secret are as following:\n```\npassword123\n```"
    ∧ get_file_source secretFS demoRoot "../secret" ≠ "Cannot get contents of ../secret" := by
  refine ⟨by decide, by decide, by decide, by decide, by decide⟩

/-- C5 counterexample: a nonexistent in-sandbox file makes
find_string_in_file RAISE (FileNotFoundError from `open`; there is no
try/except in the function), not return the empty sequence. -/
theorem missing_file_raises_counterexample :
    find_string_in_file secretFS demoRoot "missing.txt" "x" = .error () := by
  decide

/-- C5 amended: find_string_in_file returns the empty sequence for an
empty path and for a path failing the lexical containment check, but
RAISES on a file the filesystem cannot open; the error is swallowed by
the callers (the bare except of find_string_in_repository and the
try/except of the driver), not by the function itself. -/
theorem find_string_error_dispatch :
    ∀ (fs : FS) (root : List String) (pat : String),
      find_string_in_file fs root "" pat = .ok []
      ∧ (∀ fp, List.isPrefixOf root (joinPath root fp) = false →
          find_string_in_file fs root fp pat = .ok [])
      ∧ (∀ fp, fp ≠ "" → List.isPrefixOf root (joinPath root fp) = true →
          fsLookup fs (resolveParts (joinPath root fp)) = none →
          find_string_in_file fs root fp pat = .error ()) := by
  intro fs root pat
  refine ⟨by simp [find_string_in_file], ?_, ?_⟩
  · intro fp h
    by_cases he : fp = ""
    · simp [find_string_in_file, he]
    · simp only [find_string_in_file, h]
      rw [if_neg (by simpa using he)]
      simp
  · intro fp he h hn
    simp only [find_string_in_file, h]
    rw [if_neg (by simpa using he)]
    simp [h, hn]

/-- Witness for `find_string_error_dispatch` at concrete inputs. -/
theorem find_string_error_dispatch_witness :
    find_string_in_file secretFS demoRoot "" "x" = .ok []
    ∧ List.isPrefixOf demoRoot (joinPath demoRoot "/abs") = false
    ∧ find_string_in_file secretFS demoRoot "/abs" "x" = .ok []
    ∧ fsLookup secretFS (resolveParts (joinPath demoRoot "gone.txt")) = none
    ∧ find_string_in_file secretFS demoRoot "gone.txt" "x" = .error () := by
  have h := find_string_error_dispatch secretFS demoRoot "x"
  exact ⟨h.1, by decide, h.2.1 "/abs" (by decide), by decide,
    h.2.2 "gone.txt" (by decide) (by decide) (by decide)⟩

/-! ## Driver loop helpers -/

/-- When the loop guard fails the driver returns its state unchanged,
regardless of remaining fuel. -/
theorem driverLoop_stop (chat : Chat) (tools : Tools) (fuel : Nat) (msgs : List Message)
    (made : Bool) (loops : Nat) (last : Option Response)
    (h : ¬(made = true ∧ loops < 10)) :
    driverLoop chat tools fuel msgs made loops last = ⟨msgs, loops, last⟩ := by
  cases fuel with
  | zero => simp [driverLoop]
  | succ f => simp only [driverLoop]; rw [if_neg h]

/-- The loop counter never passes 10. -/
theorem driverLoop_le (chat : Chat) (tools : Tools) :
    ∀ (fuel : Nat) (msgs : List Message) (made : Bool) (loops : Nat) (last : Option Response),
      loops ≤ 10 → (driverLoop chat tools fuel msgs made loops last).loops ≤ 10 := by
  intro fuel
  induction fuel with
  | zero => intro msgs made loops last h; simpa [driverLoop] using h
  | succ f ih =>
    intro msgs made loops last h
    by_cases hc : (made = true ∧ loops < 10)
    · simp only [driverLoop]
      rw [if_pos hc]
      exact ih _ _ _ _ (by omega)
    · rw [driverLoop_stop chat tools _ _ _ _ _ hc]
      exact h

/-- A response with at least one tool call keeps
`made_tool_calls_in_this_loop` true. -/
theorem made_of_ne_nil (r : Response) (h : r.tool_calls ≠ []) :
    (!r.tool_calls.isEmpty) = true := by
  cases hr : r.tool_calls with
  | nil => exact absurd hr h
  | cons a l => simp [List.isEmpty]

/-- Under a behaviour that always requests a tool call, the loop exits
exactly at counter 10 (given enough fuel, which the entry point always
supplies). -/
theorem driverLoop_exact (chat : Chat) (tools : Tools)
    (H : ∀ i msgs, (chat i msgs).tool_calls ≠ []) :
    ∀ (fuel loops : Nat) (msgs : List Message) (last : Option Response),
      loops < 10 → 11 ≤ loops + fuel →
      (driverLoop chat tools fuel msgs true loops last).loops = 10 := by
  intro fuel
  induction fuel with
  | zero => intro loops msgs last h1 h2; omega
  | succ f ih =>
    intro loops msgs last h1 h2
    simp only [driverLoop]
    rw [if_pos ⟨by trivial, h1⟩, made_of_ne_nil _ (H loops msgs)]
    by_cases h3 : loops + 1 < 10
    · exact ih _ _ _ h3 (by omega)
    · rw [driverLoop_stop chat tools _ _ _ _ _ (by simp; omega)]
      show loops + 1 = 10
      omega

/-- C2: query_repo_for_information always terminates (it is a total
function of the behaviour); under any chat behaviour in which every
response carries at least one tool call the loop counter — which counts
chat calls, one per iteration — finishes at exactly 10, and under any
behaviour at all it never passes 10. -/
theorem query_loop_runs_exactly_ten :
    (∀ (chat : Chat) (tools : Tools) (files : List String) (prompt : String),
        (∀ i msgs, (chat i msgs).tool_calls ≠ []) →
        (query_repo_for_information chat tools files prompt).loops = 10)
    ∧ ∀ (chat : Chat) (tools : Tools) (files : List String) (prompt : String),
        (query_repo_for_information chat tools files prompt).loops ≤ 10 := by
  constructor
  · intro chat tools files prompt H
    exact driverLoop_exact chat tools H 11 0 _ none (by omega) (by omega)
  · intro chat tools files prompt
    exact driverLoop_le chat tools 11 _ true 0 none (by omega)

/-- Witness for `query_loop_runs_exactly_ten` on a concrete always-tool
behaviour. -/
theorem query_loop_runs_exactly_ten_witness :
    (query_repo_for_information constChat noTools [] "What does this repository do?").loops = 10 :=
  query_loop_runs_exactly_ten.1 constChat noTools [] "What does this repository do?"
    (fun i msgs => by simp [constChat])

/-- A batch of tool calls that all fail (unknown name or raising
capability) leaves the message history unchanged: the `except` arm only
prints. -/
theorem processCalls_noop (tools : Tools) :
    ∀ (tcs : List ToolCall) (msgs : List Message),
      (∀ tc ∈ tcs, toolResult tools tc = none) → processCalls tools msgs tcs = msgs := by
  intro tcs
  induction tcs with
  | nil => intro msgs _; rfl
  | cons tc rest ih =>
    intro msgs h
    have h0 : toolResult tools tc = none := h tc (List.mem_cons_self tc rest)
    have h1 : processTool tools msgs tc = msgs := by rw [processTool, h0]
    calc processCalls tools msgs (tc :: rest)
        = processCalls tools (processTool tools msgs tc) rest := rfl
      _ = processCalls tools msgs rest := by rw [h1]
      _ = msgs := ih msgs (fun t ht => h t (List.mem_cons_of_mem tc ht))

/-- Under a behaviour whose every response requests only failing tool
calls, the loop keeps iterating to the cap with the history untouched. -/
theorem driverLoop_noop (chat : Chat) (tools : Tools)
    (H1 : ∀ i msgs, (chat i msgs).tool_calls ≠ [])
    (H2 : ∀ i msgs, ∀ tc ∈ (chat i msgs).tool_calls, toolResult tools tc = none) :
    ∀ (fuel loops : Nat) (msgs : List Message) (last : Option Response),
      loops < 10 → 11 ≤ loops + fuel →
      (driverLoop chat tools fuel msgs true loops last).messages = msgs
      ∧ (driverLoop chat tools fuel msgs true loops last).loops = 10 := by
  intro fuel
  induction fuel with
  | zero => intro loops msgs last h1 h2; omega
  | succ f ih =>
    intro loops msgs last h1 h2
    simp only [driverLoop]
    rw [if_pos ⟨by trivial, h1⟩, made_of_ne_nil _ (H1 loops msgs),
      processCalls_noop tools _ msgs (H2 loops msgs)]
    by_cases h3 : loops + 1 < 10
    · exact ih _ _ _ h3 (by omega)
    · rw [driverLoop_stop chat tools _ _ _ _ _ (by simp; omega)]
      exact ⟨rfl, by show loops + 1 = 10; omega⟩

/-- C3 counterexample: a session in which the model requests an unknown
capability on every turn ends with the seeded message history UNCHANGED
— no `tool` role message describing the failure is ever appended (the
driver only prints the failure) — even though the loop kept running to
the cap. -/
theorem unknown_tool_appends_no_message :
    (query_repo_for_information bogusChat noTools [] "q").messages = initialMessages [] "q"
    ∧ (∀ m ∈ initialMessages [] "q", m.role ≠ "tool")
    ∧ (query_repo_for_information bogusChat noTools [] "q").loops = 10 := by
  refine ⟨rfl, by decide, rfl⟩

/-- C3 amended: on capability lookup failure or an invocation error the
driver appends NOTHING to the history (the failure is only printed) and
continues to the next iteration rather than raising; the failed call
still counts as a made tool call, so a behaviour issuing only failing
calls drives the loop to the full 10 iterations with the history left
exactly as seeded. -/
theorem failed_tool_calls_skip_message :
    (∀ (tools : Tools) (msgs : List Message) (tcs : List ToolCall),
        (∀ tc ∈ tcs, toolResult tools tc = none) → processCalls tools msgs tcs = msgs)
    ∧ ∀ (chat : Chat) (tools : Tools) (files : List String) (prompt : String),
        (∀ i msgs, (chat i msgs).tool_calls ≠ []) →
        (∀ i msgs, ∀ tc ∈ (chat i msgs).tool_calls, toolResult tools tc = none) →
        (query_repo_for_information chat tools files prompt).messages = initialMessages files prompt
        ∧ (query_repo_for_information chat tools files prompt).loops = 10 := by
  constructor
  · intro tools msgs tcs h
    exact processCalls_noop tools tcs msgs h
  · intro chat tools files prompt H1 H2
    exact driverLoop_noop chat tools H1 H2 11 0 _ none (by omega) (by omega)

/-- Witness for `failed_tool_calls_skip_message` at concrete inputs. -/
theorem failed_tool_calls_skip_message_witness :
    (∀ tc ∈ [ToolCall.mk "bogus_tool" "x"], toolResult noTools tc = none)
    ∧ processCalls noTools [⟨"system", "s"⟩] [⟨"bogus_tool", "x"⟩] = [⟨"system", "s"⟩] :=
  ⟨by decide, failed_tool_calls_skip_message.1 noTools [⟨"system", "s"⟩]
    [⟨"bogus_tool", "x"⟩] (by decide)⟩

/-- The driver always receives at least one chat response; the final one
either carried no tool calls (normal termination) or the loop counter
reached the cap. -/
theorem driverLoop_final (chat : Chat) (tools : Tools) :
    ∀ (fuel loops : Nat) (msgs : List Message) (last : Option Response),
      loops < 10 → 11 ≤ loops + fuel →
      ∃ r, (driverLoop chat tools fuel msgs true loops last).last = some r
        ∧ (r.tool_calls = [] ∨ (driverLoop chat tools fuel msgs true loops last).loops = 10) := by
  intro fuel
  induction fuel with
  | zero => intro loops msgs last h1 h2; omega
  | succ f ih =>
    intro loops msgs last h1 h2
    simp only [driverLoop]
    rw [if_pos ⟨by trivial, h1⟩]
    by_cases htc : (chat loops msgs).tool_calls = []
    · rw [driverLoop_stop chat tools _ _ _ _ _ (by simp [htc, List.isEmpty])]
      exact ⟨chat loops msgs, rfl, Or.inl htc⟩
    · rw [made_of_ne_nil _ htc]
      by_cases h3 : loops + 1 < 10
      · exact ih _ _ _ h3 (by omega)
      · rw [driverLoop_stop chat tools _ _ _ _ _ (by simp; omega)]
        exact ⟨chat loops msgs, rfl, Or.inr (by show loops + 1 = 10; omega)⟩

/-- C9 counterexample: when the iteration budget is exhausted the driver
does not return `None` or empty content — it returns whatever assistant
content the 10th response carried.  Under a behaviour that always sends
content alongside a tool call, the answer is that non-empty content. -/
theorem budget_exhaustion_returns_last_content :
    queryAnswer constChat noTools [] "q" = some "still looking"
    ∧ some "still looking" ≠ (none : Option String)
    ∧ ("still looking" : String) ≠ "" := by
  refine ⟨rfl, by decide, by decide⟩

/-- C9 amended: query_repo_for_information is total (never hangs or
raises) and always returns the assistant content of the final chat
response; that final response either contained no tool calls (normal
termination) or the 10-iteration budget was exhausted, in which case the
returned value is the content of the 10th response, whatever it is. -/
theorem query_returns_final_response_content :
    ∀ (chat : Chat) (tools : Tools) (files : List String) (prompt : String),
      ∃ r, (query_repo_for_information chat tools files prompt).last = some r
        ∧ queryAnswer chat tools files prompt = r.content
        ∧ (r.tool_calls = [] ∨ (query_repo_for_information chat tools files prompt).loops = 10) := by
  intro chat tools files prompt
  obtain ⟨r, hr, hor⟩ :=
    driverLoop_final chat tools 11 0 (initialMessages files prompt) none (by omega) (by omega)
  refine ⟨r, hr, ?_, hor⟩
  rw [queryAnswer]
  rw [show (query_repo_for_information chat tools files prompt).last = some r from hr]

/-- C7: the functools.cache wrapper installed by
compute_tools_for_context makes a second invocation with identical
arguments return exactly the first result and leave the cache untouched,
whatever the filesystem looks like at the time of the second call — the
capability body is not re-run, so a mid-session mutation of the
repository (fs2 arbitrary, possibly different from fs1) is invisible. -/
theorem cached_call_ignores_repository_mutation :
    ∀ (f : FS → String → String) (fs1 fs2 : FS) (cache : List (String × String)) (a : String),
      callCached f fs2 (callCached f fs1 cache a).2 a = callCached f fs1 cache a := by
  intro f fs1 fs2 cache a
  cases h : cacheFind a cache with
  | some v => simp [callCached, h]
  | none => simp [callCached, h, cacheFind]

/-! ## Directory walk helpers -/

/-- Paths produced by the walk of a directory list are never empty. -/
theorem walkDirs_ne_nil : ∀ (l : List FSTree) (p : List String), p ∈ walkDirs l → p ≠ [] := by
  intro l
  induction l with
  | nil => intro p hp; simp [walkDirs] at hp
  | cons e rest ih =>
    intro p hp
    cases e with
    | file f =>
      rw [walkDirs] at hp
      exact ih p hp
    | dir m sub =>
      rw [walkDirs] at hp
      rcases List.mem_append.1 hp with h1 | h2
      · by_cases hm : startsWithDot m
        · rw [if_pos hm] at h1; simp at h1
        · rw [if_neg hm] at h1
          obtain ⟨q, _, rfl⟩ := List.mem_map.1 h1
          simp
      · exact ih p h2

/-- Members of the file pass of one directory are single-segment paths. -/
theorem mem_filterMap_topFile (es : List FSTree) (p : List String)
    (hp : p ∈ es.filterMap topFile) : ∃ f, p = [f] := by
  obtain ⟨e, _, hf⟩ := List.mem_filterMap.1 hp
  cases e with
  | file f => exact ⟨f, by simpa [topFile] using hf.symm⟩
  | dir m sub => simp [topFile] at hf

/-- No non-final segment of a walked path is dotted: the walk prunes
every hidden directory before descending. -/
theorem walkDirs_no_hidden :
    ∀ (n : Nat) (l : List FSTree), sizeOf l ≤ n →
      ∀ p ∈ walkDirs l, ∀ s ∈ p.dropLast, startsWithDot s = false := by
  intro n
  induction n with
  | zero =>
    intro l hl
    cases l <;> simp_arith at hl
  | succ n ih =>
    intro l hl p hp s hs
    match l with
    | [] => simp [walkDirs] at hp
    | .file f :: rest =>
      rw [walkDirs] at hp
      have hr : sizeOf rest ≤ n := by
        have : sizeOf (FSTree.file f :: rest) = 1 + sizeOf (FSTree.file f) + sizeOf rest := rfl
        have : 1 ≤ sizeOf (FSTree.file f) := by cases hf : FSTree.file f <;> simp_arith
        omega
      exact ih rest hr p hp s hs
    | .dir m sub :: rest =>
      have hsz : sizeOf (FSTree.dir m sub :: rest)
          = 1 + (1 + sizeOf m + sizeOf sub) + sizeOf rest := by simp_arith
      rw [walkDirs] at hp
      rcases List.mem_append.1 hp with h1 | h2
      · by_cases hm : startsWithDot m
        · rw [if_pos hm] at h1; simp at h1
        · rw [if_neg hm] at h1
          obtain ⟨q, hq, rfl⟩ := List.mem_map.1 h1
          have hmfalse : startsWithDot m = false := by
            cases hv : startsWithDot m
            · rfl
            · exact absurd hv hm
          rcases List.mem_append.1 hq with hq1 | hq2
          · obtain ⟨f, rfl⟩ := mem_filterMap_topFile sub q hq1
            simp only [List.dropLast] at hs
            simp at hs
            rw [hs]
            exact hmfalse
          · have hqne : q ≠ [] := walkDirs_ne_nil sub q hq2
            obtain ⟨b, l2, rfl⟩ := List.exists_cons_of_ne_nil hqne
            have hdl : (m :: b :: l2).dropLast = m :: (b :: l2).dropLast := rfl
            rw [hdl] at hs
            rcases List.mem_cons.1 hs with rfl | hs2
            · exact hmfalse
            · exact ih sub (by omega) (b :: l2) hq2 s hs2
      · exact ih rest (by omega) p h2 s hs

/-- C8 counterexample: a hidden FILE at the repository top level IS
returned by list_files_in_repository, so a returned path can have a
first segment starting with a dot — only hidden DIRECTORIES are
pruned. -/
theorem hidden_file_listed_counterexample :
    walkFiles dotFileTree = [[".env"]]
    ∧ list_files_in_repository dotFileTree = [".env"]
    ∧ startsWithDot ".env" = true := by
  refine ⟨?_, ?_, by decide⟩
  · simp [dotFileTree, walkFiles, walkDirs, topFile, startsWithDot]
  · simp [list_files_in_repository, dotFileTree, walkFiles, walkDirs, topFile, startsWithDot]
    decide

/-- C8 amended: list_files_in_repository never returns any path lying
BENEATH a hidden directory — no segment except possibly the final file
name starts with a dot — but a hidden file inside a visible directory is
returned. -/
theorem list_files_prunes_hidden_dirs :
    ∀ (t : FSTree) (p : List String), p ∈ walkFiles t →
      ∀ s ∈ p.dropLast, startsWithDot s = false := by
  intro t p hp s hs
  cases t with
  | file f => simp [walkFiles] at hp
  | dir n es =>
    rw [walkFiles] at hp
    by_cases hn : startsWithDot n
    · rw [if_pos hn] at hp; simp at hp
    · rw [if_neg hn] at hp
      rcases List.mem_append.1 hp with h1 | h2
      · obtain ⟨f, rfl⟩ := mem_filterMap_topFile es p h1
        simp at hs
      · exact walkDirs_no_hidden (sizeOf es) es (le_refl _) p h2 s hs

/-- Witness for `list_files_prunes_hidden_dirs` at a concrete tree. -/
theorem list_files_prunes_hidden_dirs_witness :
    (["src", "a.py"] ∈ walkFiles srcTree)
    ∧ ("src" ∈ (["src", "a.py"] : List String).dropLast)
    ∧ startsWithDot "src" = false := by
  have h : ["src", "a.py"] ∈ walkFiles srcTree := by
    simp [srcTree, walkFiles, walkDirs, topFile, startsWithDot]
  exact ⟨h, by decide, list_files_prunes_hidden_dirs srcTree _ h "src" (by decide)⟩

/-! ## String search helpers -/

/-- Bridge between the boolean prefix test and the prefix relation. -/
theorem isPrefixOf_eq_true_iff (l1 l2 : List Char) : l1.isPrefixOf l2 = true ↔ l1 <+: l2 := by
  exact List.isPrefixOf_iff_prefix

/-- `firstIdx` is sound and minimal: the returned index is the first
position where the needle occurs. -/
theorem firstIdx_some (needle : List Char) :
    ∀ (hay : List Char) (j : Nat), firstIdx needle hay = some j →
      needle <+: hay.drop j ∧ ∀ j2 < j, ¬ needle <+: hay.drop j2 := by
  intro hay
  induction hay with
  | nil =>
    intro j h
    rw [firstIdx] at h
    by_cases he : needle.isEmpty
    · rw [if_pos he] at h
      cases h
      refine ⟨?_, by omega⟩
      simp [List.isEmpty_iff.1 he]
    · rw [if_neg he] at h
      cases h
  | cons c rest ih =>
    intro j h
    rw [firstIdx] at h
    by_cases hp : needle.isPrefixOf (c :: rest)
    · rw [if_pos hp] at h
      cases h
      exact ⟨(isPrefixOf_eq_true_iff needle (c :: rest)).1 hp, by omega⟩
    · rw [if_neg hp] at h
      obtain ⟨j1, hj1, rfl⟩ := Option.map_eq_some'.1 h
      obtain ⟨hpre, hmin⟩ := ih j1 hj1
      refine ⟨by simpa [List.drop_succ_cons] using hpre, ?_⟩
      intro j2 hj2
      cases j2 with
      | zero =>
        simp only [List.drop]
        intro hcon
        exact hp ((isPrefixOf_eq_true_iff needle (c :: rest)).2 hcon)
      | succ k =>
        rw [List.drop_succ_cons]
        exact hmin k (by omega)

/-- Characterization of the per-line search loop when every
case-insensitively matching line also contains the pattern exactly (so
`line.index` does not raise): the call succeeds, every reported location
names a matching line with the exact-match column, and every matching
line is reported.  `i` is the 0-based number of the first line. -/
theorem findInLines_spec (fp pat : String) :
    ∀ (lines : List String) (i : Nat),
      (∀ l ∈ lines, lineMatches pat l = true → (firstIdx pat.toList l.toList).isSome = true) →
      ∃ locs, findInLines fp pat i lines = .ok locs
        ∧ (∀ loc ∈ locs, loc.file_path = fp ∧ ∃ k l, lines.get? k = some l
            ∧ loc.row = i + k + 1 ∧ lineMatches pat l = true
            ∧ ∃ j, loc.column = j + 1 ∧ firstIdx pat.toList l.toList = some j)
        ∧ (∀ k l, lines.get? k = some l → lineMatches pat l = true →
            ∃ loc ∈ locs, loc.row = i + k + 1) := by
  intro lines
  induction lines with
  | nil =>
    intro i _
    refine ⟨[], rfl, by simp, ?_⟩
    intro k l hk
    simp at hk
  | cons l ls ih =>
    intro i H
    have H2 : ∀ l2 ∈ ls, lineMatches pat l2 = true → (firstIdx pat.toList l2.toList).isSome = true :=
      fun l2 hl2 => H l2 (List.mem_cons_of_mem l hl2)
    obtain ⟨locs2, e2, snd2, cpl2⟩ := ih (i + 1) H2
    by_cases hm : lineMatches pat l = true
    · obtain ⟨j, hj⟩ := Option.isSome_iff_exists.1 (H l (List.mem_cons_self l ls) hm)
      refine ⟨⟨fp, i + 1, j + 1⟩ :: locs2, ?_, ?_, ?_⟩
      · rw [findInLines, if_pos hm, hj, e2]
        rfl
      · intro loc hloc
        rcases List.mem_cons.1 hloc with rfl | hloc2
        · exact ⟨rfl, 0, l, rfl, by show i + 1 = i + 0 + 1; omega, hm, j, rfl, hj⟩
        · obtain ⟨hfp, k, l2, hget, hrow, hm2, hcol⟩ := snd2 loc hloc2
          exact ⟨hfp, k + 1, l2, by simpa using hget, by omega, hm2, hcol⟩
      · intro k l2 hget hm2
        cases k with
        | zero =>
          refine ⟨⟨fp, i + 1, j + 1⟩, List.mem_cons_self _ _, by simp⟩
        | succ k2 =>
          obtain ⟨loc, hmem, hrow⟩ := cpl2 k2 l2 (by simpa using hget) hm2
          exact ⟨loc, List.mem_cons_of_mem _ hmem, by omega⟩
    · refine ⟨locs2, ?_, ?_, ?_⟩
      · rw [findInLines, if_neg hm]
        exact e2
      · intro loc hloc
        obtain ⟨hfp, k, l2, hget, hrow, hm2, hcol⟩ := snd2 loc hloc
        exact ⟨hfp, k + 1, l2, by simpa using hget, by omega, hm2, hcol⟩
      · intro k l2 hget hm2
        cases k with
        | zero =>
          rw [List.get?] at hget
          cases hget
          exact absurd hm2 hm
        | succ k2 =>
          obtain ⟨loc, hmem, hrow⟩ := cpl2 k2 l2 (by simpa using hget) hm2
          exact ⟨loc, hmem, by omega⟩

/-- Evaluation of the walk on the two-file demo repository. -/
theorem list_files_demoTree : list_files_in_repository demoTree = ["a.py", "b.py"] := by
  simp [list_files_in_repository, demoTree, walkFiles, walkDirs, topFile, startsWithDot]
  decide

/-- C6 counterexample: a line matching the pattern case-insensitively
but containing no exact occurrence makes find_string_in_file RAISE
(ValueError from `line.index(string_pattern)`, which is case-sensitive
while the match test lower-cases both sides) instead of returning a
Symbol Location for that line. -/
theorem case_mismatch_raises_counterexample :
    lineMatches "foo" "Foo" = true
    ∧ find_string_in_file caseFS demoRoot "c.py" "foo" = .error () := by
  refine ⟨by decide, by decide⟩

/-- C6 amended: provided every case-insensitively matching line also
contains the pattern exactly (otherwise the call raises, see the
counterexample), find_string_in_file reports one location per matching
line, whose row is the 1-based line number and whose column is one more
than the FIRST EXACT occurrence position of the pattern in that line;
every matching line is reported.  On the two-file end-to-end example the
repository-wide search returns exactly the two expected locations. -/
theorem find_string_row_column_correct :
    (∀ (fp pat : String) (lines : List String),
        (∀ l ∈ lines, lineMatches pat l = true → (firstIdx pat.toList l.toList).isSome = true) →
        ∃ locs, findInLines fp pat 0 lines = .ok locs
          ∧ (∀ loc ∈ locs, loc.file_path = fp ∧ 1 ≤ loc.row
              ∧ ∃ l, lines.get? (loc.row - 1) = some l ∧ lineMatches pat l = true
              ∧ ∃ j, loc.column = j + 1 ∧ pat.toList <+: l.toList.drop j
                ∧ ∀ j2 < j, ¬ pat.toList <+: l.toList.drop j2)
          ∧ (∀ k l, lines.get? k = some l → lineMatches pat l = true →
              ∃ loc ∈ locs, loc.row = k + 1))
    ∧ find_string_in_repository demoTree demoFS demoRoot "foo"
        = [⟨"a.py", 1, 5⟩, ⟨"b.py", 1, 1⟩] := by
  constructor
  · intro fp pat lines H
    obtain ⟨locs, e, snd, cpl⟩ := findInLines_spec fp pat lines 0 H
    refine ⟨locs, e, ?_, ?_⟩
    · intro loc hloc
      obtain ⟨hfp, k, l, hget, hrow, hm, j, hcol, hj⟩ := snd loc hloc
      obtain ⟨hpre, hmin⟩ := firstIdx_some pat.toList l.toList j hj
      refine ⟨hfp, by omega, l, ?_, hm, j, hcol, hpre, hmin⟩
      have e2 : loc.row - 1 = k := by omega
      rw [e2]
      exact hget
    · intro k l hget hm
      obtain ⟨loc, hmem, hrow⟩ := cpl k l hget hm
      exact ⟨loc, hmem, by omega⟩
  · rw [find_string_in_repository, list_files_demoTree]
    decide

/-- Witness for `find_string_row_column_correct` on a one-line file. -/
theorem find_string_row_column_correct_witness :
    (∀ l ∈ ["foo()"], lineMatches "foo" l = true →
        (firstIdx ("foo" : String).toList l.toList).isSome = true)
    ∧ ∃ locs, findInLines "b.py" "foo" 0 ["foo()"] = .ok locs
        ∧ (∀ loc ∈ locs, loc.file_path = "b.py" ∧ 1 ≤ loc.row
            ∧ ∃ l, (["foo()"] : List String).get? (loc.row - 1) = some l
            ∧ lineMatches "foo" l = true
            ∧ ∃ j, loc.column = j + 1 ∧ ("foo" : String).toList <+: l.toList.drop j
              ∧ ∀ j2 < j, ¬ ("foo" : String).toList <+: l.toList.drop j2)
        ∧ (∀ k l, (["foo()"] : List String).get? k = some l → lineMatches "foo" l = true →
            ∃ loc ∈ locs, loc.row = k + 1) :=
  ⟨by decide, find_string_row_column_correct.1 "b.py" "foo" ["foo()"] (by decide)⟩

/-! ## Empty pattern (C10) -/

/-- The empty needle occurs at position 0 of every haystack, as in
Python (`"" in s` is True and `s.index("")` is 0). -/
theorem firstIdx_nil : ∀ hay : List Char, firstIdx [] hay = some 0 := by
  intro hay
  cases hay with
  | nil => rw [firstIdx]; simp [List.isEmpty]
  | cons c r => rw [firstIdx]; simp [List.isPrefixOf]

/-- Every line matches the empty pattern. -/
theorem lineMatches_empty (l : String) : lineMatches "" l = true := by
  rw [lineMatches]
  have h : lowerL ("" : String).toList = [] := rfl
  rw [h, firstIdx_nil]
  rfl

/-- The loop over the lines of a file, with the empty pattern: one
location per line, column 1, rows counting up from `i + 1`. -/
theorem findInLines_empty_pattern (fp : String) :
    ∀ (lines : List String) (i : Nat),
      ∃ locs, findInLines fp "" i lines = .ok locs ∧ locs.length = lines.length
        ∧ ∀ k, k < lines.length → locs.get? k = some ⟨fp, i + k + 1, 1⟩ := by
  intro lines
  induction lines with
  | nil =>
    intro i
    exact ⟨[], rfl, rfl, by intro k hk; simp at hk⟩
  | cons l ls ih =>
    intro i
    obtain ⟨locs2, e2, hlen, hget⟩ := ih (i + 1)
    have he : firstIdx ("" : String).toList l.toList = some 0 := by
      have h0 : ("" : String).toList = [] := rfl
      rw [h0, firstIdx_nil]
    refine ⟨⟨fp, i + 1, 1⟩ :: locs2, ?_, by simp [hlen], ?_⟩
    · rw [findInLines, if_pos (lineMatches_empty l), he, e2]
      rfl
    · intro k hk
      cases k with
      | zero => rfl
      | succ k2 =>
        have h2 := hget k2 (by simpa using hk)
        have e3 : i + 1 + k2 + 1 = i + (k2 + 1) + 1 := by omega
        rw [e3] at h2
        simpa using h2

/-- C10: with the empty search pattern, every in-sandbox readable file
yields one Symbol Location per line, with 1-based rows and column 1
(`"" in line` is always true and `line.index("")` is 0). -/
theorem empty_pattern_lists_every_line :
    ∀ (fs : FS) (root : List String) (fp : String) (lines : List String),
      fp ≠ "" →
      List.isPrefixOf root (joinPath root fp) = true →
      fsLookup fs (resolveParts (joinPath root fp)) = some lines →
      ∃ locs, find_string_in_file fs root fp "" = .ok locs
        ∧ locs.length = lines.length
        ∧ ∀ k, k < lines.length → locs.get? k = some ⟨fp, k + 1, 1⟩ := by
  intro fs root fp lines h1 h2 h3
  obtain ⟨locs, hl, hlen, hget⟩ := findInLines_empty_pattern fp lines 0
  refine ⟨locs, ?_, hlen, ?_⟩
  · rw [find_string_in_file]
    rw [if_neg (by simpa using h1)]
    simp only [h2, if_pos]
    rw [h3]
    exact hl
  · intro k hk
    have h4 := hget k hk
    have e : 0 + k + 1 = k + 1 := by omega
    rw [e] at h4
    exact h4

/-- Witness for `empty_pattern_lists_every_line` on the demo file. -/
theorem empty_pattern_lists_every_line_witness :
    (("a.py" : String) ≠ "")
    ∧ List.isPrefixOf demoRoot (joinPath demoRoot "a.py") = true
    ∧ fsLookup demoFS (resolveParts (joinPath demoRoot "a.py")) = some ["def foo(): pass"]
    ∧ ∃ locs, find_string_in_file demoFS demoRoot "a.py" "" = .ok locs
        ∧ locs.length = (["def foo(): pass"] : List String).length
        ∧ ∀ k, k < (["def foo(): pass"] : List String).length →
            locs.get? k = some ⟨"a.py", k + 1, 1⟩ :=
  ⟨by decide, by decide, by decide,
    empty_pattern_lists_every_line demoFS demoRoot "a.py" ["def foo(): pass"]
      (by decide) (by decide) (by decide)⟩

end BeYourOwnRag
